import Mathlib

/-!
Verification of the counting / evaluation logic of the animals-detection
repository (files `src/detector.py`, `evaluate_counting.py`,
`src/database.py`).

Python dictionaries mapping animal-class labels to integer counts are
embedded as association lists `List (String × ℕ)` (counts are
non-negative integers throughout the pipeline).  `getD d k` models
`d.get(k, 0)` / `defaultdict(int)` reads, `setk d k v` models
`d[k] = v` (replace the binding of an existing key in place, append a
fresh key at the end, exactly the insertion-order semantics of a Python
dict).  Real-valued metrics are modelled exactly over `ℚ`; Python's
`round(x, 2)` is modelled by `round2` (rounding `x*100` to the nearest
integer; the concrete values appearing below are never half-way cases,
where the two conventions agree).
-/

/-- Read of a Python `dict` / `defaultdict(int)`: value of the first
binding of key `k`, and `0` when `k` is absent (`d.get(k, 0)`). -/
def getD : List (String × ℕ) → String → ℕ
  | [], _ => 0
  | p :: t, k => if p.1 = k then p.2 else getD t k

/-- Write `d[k] = v` of a Python `dict`: replace the binding of an
existing key in place, append a new key at the end. -/
def setk : List (String × ℕ) → String → ℕ → List (String × ℕ)
  | [], k, v => [(k, v)]
  | p :: t, k, v => if p.1 = k then (k, v) :: t else p :: setk t k v

/-- Key list of a dict. -/
def keylist (d : List (String × ℕ)) : List String :=
  d.map Prod.fst

/-- Sum of the values of a dict, `sum(d.values())`. -/
def sumVals (d : List (String × ℕ)) : ℕ :=
  (d.map Prod.snd).sum

/-- Running-maximum update loop shared by `SimpleAnimalDetector.detect_frame`
(detector.py lines 67-69) and `CountingEvaluator.evaluate_video`
(evaluate_counting.py lines 35-37):
`for animal, count in counts.items(): max_counts[animal] = max(max_counts[animal], count)`. -/
def stepMax (m obs : List (String × ℕ)) : List (String × ℕ) :=
  obs.foldl (fun acc p => setk acc p.1 (max (getD acc p.1) p.2)) m

/-- The per-video running maximum of `CountingEvaluator.evaluate_video`:
`max_counts = defaultdict(int)` folded with the update loop over every
frame's counts dict. -/
def runMax (obss : List (List (String × ℕ))) : List (String × ℕ) :=
  obss.foldl stepMax []

theorem getD_setk (d : List (String × ℕ)) (k k2 : String) (v : ℕ) :
    getD (setk d k v) k2 = if k = k2 then v else getD d k2 := by
  induction d with
  | nil =>
      by_cases h : k = k2 <;> simp [setk, getD, h]
  | cons p t ih =>
      by_cases hp : p.1 = k
      · by_cases h : k = k2
        · simp [setk, getD, hp, h]
        · have hpk2 : ¬ p.1 = k2 := fun hc => h (hp.symm.trans hc)
          simp [setk, getD, hp, h, hpk2]
      · by_cases h : p.1 = k2
        · have hkk2 : ¬ k = k2 := fun hc => hp (h.trans hc.symm)
          have hk2k : ¬ k2 = k := fun hc => hkk2 hc.symm
          simp [setk, getD, hp, h, hkk2, hk2k]
        · simp [setk, getD, hp, h, ih]

theorem mem_keylist_setk (d : List (String × ℕ)) (k a : String) (v : ℕ) :
    a ∈ keylist (setk d k v) ↔ a ∈ keylist d ∨ a = k := by
  induction d with
  | nil => simp [setk, keylist]
  | cons p t ih =>
      simp only [keylist] at ih ⊢
      by_cases hp : p.1 = k
      · simp only [setk, hp, if_true, List.map_cons, List.mem_cons]
        tauto
      · simp only [setk, hp, if_false, List.map_cons, List.mem_cons]
        rw [ih]
        tauto

theorem getD_eq_zero_of_not_mem (d : List (String × ℕ)) (k : String)
    (h : k ∉ keylist d) : getD d k = 0 := by
  induction d with
  | nil => rfl
  | cons p t ih =>
      simp only [keylist, List.map_cons, List.mem_cons] at h
      push_neg at h
      have : ¬ p.1 = k := fun hk => h.1 hk.symm
      simp [getD, this, ih h.2]

theorem nodup_keylist_setk (d : List (String × ℕ)) (k : String) (v : ℕ)
    (h : (keylist d).Nodup) : (keylist (setk d k v)).Nodup := by
  induction d with
  | nil => simp [setk, keylist]
  | cons p t ih =>
      simp only [keylist, List.map_cons, List.nodup_cons] at h
      by_cases hp : p.1 = k
      · simp only [setk, hp, if_true, keylist, List.map_cons, List.nodup_cons]
        exact ⟨hp ▸ h.1, h.2⟩
      · simp only [setk, hp, if_false, keylist, List.map_cons, List.nodup_cons]
        refine ⟨fun hmem => ?_, ih h.2⟩
        rcases (mem_keylist_setk t k p.1 v).1 hmem with h2 | h2
        · exact h.1 h2
        · exact hp h2

theorem getD_stepMax (obs : List (String × ℕ)) (m : List (String × ℕ))
    (l : String) (h : (keylist obs).Nodup) :
    getD (stepMax m obs) l = max (getD m l) (getD obs l) := by
  induction obs generalizing m with
  | nil => simp [stepMax, getD]
  | cons p t ih =>
      simp only [keylist, List.map_cons, List.nodup_cons] at h
      have hstep : stepMax m (p :: t)
          = stepMax (setk m p.1 (max (getD m p.1) p.2)) t := rfl
      rw [hstep, ih _ h.2, getD_setk]
      by_cases hl : p.1 = l
      · have ht : getD t l = 0 :=
          getD_eq_zero_of_not_mem t l (hl ▸ h.1)
        simp [getD, hl, ht, Nat.max_assoc]
      · simp [getD, hl]

theorem getD_le_getD_stepMax (m obs : List (String × ℕ)) (l : String) :
    getD m l ≤ getD (stepMax m obs) l := by
  induction obs generalizing m with
  | nil => exact Nat.le_refl _
  | cons p t ih =>
      have hstep : stepMax m (p :: t)
          = stepMax (setk m p.1 (max (getD m p.1) p.2)) t := rfl
      rw [hstep]
      refine Nat.le_trans ?_ (ih _)
      rw [getD_setk]
      by_cases hl : p.1 = l
      · subst hl
        simp
      · simp [hl]

theorem getD_foldl_stepMax (obss : List (List (String × ℕ)))
    (m : List (String × ℕ)) (l : String)
    (h : ∀ o ∈ obss, (keylist o).Nodup) :
    getD (obss.foldl stepMax m) l
      = max (getD m l) ((obss.map (fun o => getD o l)).foldr max 0) := by
  induction obss generalizing m with
  | nil => simp [getD]
  | cons o t ih =>
      have ho : (keylist o).Nodup := h o (List.mem_cons_self o t)
      have ht : ∀ o2 ∈ t, (keylist o2).Nodup :=
        fun o2 h2 => h o2 (List.mem_cons_of_mem o h2)
      simp only [List.foldl_cons, List.map_cons, List.foldr_cons]
      rw [ih _ ht, getD_stepMax o m l ho, Nat.max_assoc]

/-- State of `SimpleAnimalDetector` relevant to counting: the configured
class list `animal_classes` (fixed at construction from the config file)
and the two count dicts `current_counts` / `max_counts`
(both `defaultdict(int)`, empty at construction). -/
structure DetectorState where
  animal_classes : List String
  current_counts : List (String × ℕ)
  max_counts : List (String × ℕ)

/-- Freshly constructed detector: both count dicts empty. -/
def initState (animal_classes : List String) : DetectorState :=
  { animal_classes := animal_classes, current_counts := [], max_counts := [] }

/-- State update and return value of `SimpleAnimalDetector.detect_frame`
(detector.py lines 67-72), given the per-frame counts dict
`frame_counts` that the (external) detection model produced for this
frame: `max_counts` is raised pointwise, `current_counts` is replaced,
and `dict(frame_counts)` is returned. -/
def detect_frame (st : DetectorState) (frame_counts : List (String × ℕ)) :
    DetectorState × List (String × ℕ) :=
  ({ st with
      max_counts := stepMax st.max_counts frame_counts,
      current_counts := frame_counts },
   frame_counts)

/-- Detector state after a sequence of frames (one counts dict each). -/
def runDetector (st : DetectorState) (obss : List (List (String × ℕ))) :
    DetectorState :=
  obss.foldl (fun s o => (detect_frame s o).1) st

/-- Return value of `SimpleAnimalDetector.get_summary`
(detector.py lines 130-138). -/
structure DetectorSummary where
  current_counts : List (String × ℕ)
  max_counts : List (String × ℕ)
  total_animals : ℕ
  total_max : ℕ
  animal_types : ℕ
deriving DecidableEq

/-- `SimpleAnimalDetector.get_summary`: builds the summary dict from the
current state; the method only reads attributes, which the embedding
records by also returning the (unchanged) state. -/
def get_summary (st : DetectorState) : DetectorSummary × DetectorState :=
  ({ current_counts := st.current_counts,
     max_counts := st.max_counts,
     total_animals := sumVals st.current_counts,
     total_max := sumVals st.max_counts,
     animal_types := st.animal_classes.length },
   st)

/-- Rounding of Python `round(x, 2)`: nearest multiple of `1/100`
(the values compared below are never half-way cases, where Python's
half-even tie-break and `round` agree). -/
def round2 (q : ℚ) : ℚ :=
  ((round (q * 100) : ℤ) : ℚ) / 100

/-- Evaluation universe of `CountingEvaluator.calculate_metrics`:
`all_animals = set(ground_truth.keys())`. -/
def classesOf (g : List (String × ℕ)) : List String :=
  (keylist g).dedup

/-- Per-class absolute error `abs(predicted.get(animal, 0) - ground_truth[animal])`. -/
def errOf (p g : List (String × ℕ)) (c : String) : ℕ :=
  ((getD p c : ℤ) - (getD g c : ℤ)).natAbs

/-- The `errors` list accumulated by `calculate_metrics`. -/
def errorsOf (p g : List (String × ℕ)) : List ℕ :=
  (classesOf g).map (errOf p g)

/-- The `percentage_errors` list of `calculate_metrics`: only classes
with ground-truth count `> 0` contribute `(error / gt_count) * 100`. -/
def pctErrorsOf (p g : List (String × ℕ)) : List ℚ :=
  ((classesOf g).filter (fun c => decide (0 < getD g c))).map
    (fun c => ((errOf p g c : ℚ) / (getD g c : ℚ)) * 100)

/-- The `correct` counter of `calculate_metrics`: classes matched exactly. -/
def correctOf (p g : List (String × ℕ)) : ℕ :=
  ((classesOf g).filter (fun c => decide (getD p c = getD g c))).length

/-- The `total` counter of `calculate_metrics`: `len(all_animals)`. -/
def totalOf (g : List (String × ℕ)) : ℕ :=
  (classesOf g).length

/-- Raw `mae` value of `calculate_metrics` before rounding:
`sum(errors) / len(errors) if errors else 0`. -/
def maeRaw (p g : List (String × ℕ)) : ℚ :=
  if errorsOf p g = [] then 0
  else ((errorsOf p g).sum : ℚ) / ((errorsOf p g).length : ℚ)

/-- Raw `mape` value of `calculate_metrics` before rounding. -/
def mapeRaw (p g : List (String × ℕ)) : ℚ :=
  if pctErrorsOf p g = [] then 0
  else (pctErrorsOf p g).sum / ((pctErrorsOf p g).length : ℚ)

/-- Raw `accuracy` value of `calculate_metrics` before rounding:
`correct / total * 100 if total > 0 else 0`. -/
def accuracyRaw (p g : List (String × ℕ)) : ℚ :=
  if 0 < totalOf g then ((correctOf p g : ℚ) / (totalOf g : ℚ)) * 100 else 0

/-- Model of `os.path.basename` for POSIX paths. -/
def basenameOf (s : String) : String :=
  (s.splitOn "/").getLastD s

/-- Result dict built by `CountingEvaluator.calculate_metrics`
(evaluate_counting.py lines 85-95).  The `mae`, `mape` and `accuracy`
fields are stored rounded to two decimal places. -/
structure EvalResult where
  video : String
  predicted : List (String × ℕ)
  ground_truth : List (String × ℕ)
  mae : ℚ
  mape : ℚ
  accuracy : ℚ
  correct_counts : ℕ
  total_classes : ℕ
deriving DecidableEq

/-- `CountingEvaluator.calculate_metrics(predicted, ground_truth, video_name)`
(evaluate_counting.py lines 53-95). -/
def calculate_metrics (predicted ground_truth : List (String × ℕ))
    (video_name : String) : EvalResult :=
  { video := basenameOf video_name,
    predicted := predicted,
    ground_truth := ground_truth,
    mae := round2 (maeRaw predicted ground_truth),
    mape := round2 (mapeRaw predicted ground_truth),
    accuracy := round2 (accuracyRaw predicted ground_truth),
    correct_counts := correctOf predicted ground_truth,
    total_classes := totalOf ground_truth }

/-- `CountingEvaluator.evaluate_video` (evaluate_counting.py lines 14-51).
A video source is modelled as `none` when `cv2.VideoCapture` cannot open
it (the function then returns `None` and leaves the accumulated results
untouched), and as `some frames` — the per-frame counts dicts the
detector produces — otherwise; the per-frame loop reduces the frames
with the running-maximum update, metrics are computed against the
ground truth, appended to `self.results` and returned. -/
def evaluate_video (results : List EvalResult)
    (video : Option (List (List (String × ℕ))))
    (ground_truth_counts : List (String × ℕ)) (video_path : String) :
    List EvalResult × Option EvalResult :=
  match video with
  | none => (results, none)
  | some frames =>
      let result := calculate_metrics (runMax frames) ground_truth_counts video_path
      (results ++ [result], some result)

/-- The per-video loop of `CountingEvaluator.evaluate_all`: each entry of
the ground-truth file is evaluated in turn, accumulating `self.results`. -/
def evaluate_all
    (inputs : List (Option (List (List (String × ℕ))) × List (String × ℕ) × String)) :
    List EvalResult :=
  inputs.foldl (fun rs i => (evaluate_video rs i.1 i.2.1 i.2.2).1) []

/-- Overall average `avg_mae` of `CountingEvaluator.print_summary`
(evaluate_counting.py line 150): mean of the stored per-video `mae` fields. -/
def avg_mae (rs : List EvalResult) : ℚ :=
  (rs.map (fun r => r.mae)).sum / (rs.length : ℚ)

/-- Overall average `avg_mape` of `print_summary` (line 151). -/
def avg_mape (rs : List EvalResult) : ℚ :=
  (rs.map (fun r => r.mape)).sum / (rs.length : ℚ)

/-- Overall average `avg_accuracy` of `print_summary` (line 152). -/
def avg_accuracy (rs : List EvalResult) : ℚ :=
  (rs.map (fun r => r.accuracy)).sum / (rs.length : ℚ)

/-- Modelled from the spec: the unweighted arithmetic mean across videos
of a per-video metric, the batch average the spec prescribes. -/
def unweightedMean (f : EvalResult → ℚ) (rs : List EvalResult) : ℚ :=
  (rs.map f).sum / (rs.length : ℚ)

/-- Modelled from the spec: the pooled recomputation of MAE across all
classes of all videos (total absolute error over total class count),
the aggregation the spec says is NOT used. -/
def pooledMae (videos : List (List (String × ℕ) × List (String × ℕ))) : ℚ :=
  ((videos.map (fun v => ((errorsOf v.1 v.2).sum : ℚ))).sum) /
    ((videos.map (fun v => totalOf v.2)).sum : ℚ)

/-- Field value of a time-series point: integer or string
(`.field("count", int(c))` vs `.field("detection_time", ts.isoformat())`). -/
inductive FieldVal where
  | i (n : ℤ) : FieldVal
  | s (v : String) : FieldVal
deriving DecidableEq

/-- A point written to the time-series store (`influxdb_client.Point`). -/
structure InfluxPoint where
  measurement : String
  tags : List (String × String)
  fieldvals : List (String × FieldVal)
  time : String
deriving DecidableEq

/-- Points built by `SimpleInfluxDB.save_animal_counts`
(database.py lines 60-79): one `animal_counts` point per animal type
plus one `total_animals` aggregate point. -/
def buildAnimalPoints (animal_counts : List (String × ℕ))
    (source location ts : String) : List InfluxPoint :=
  (animal_counts.map (fun p =>
    { measurement := "animal_counts",
      tags := [("animal_type", p.1), ("source", source), ("location", location)],
      fieldvals := [("count", FieldVal.i (p.2 : ℤ)), ("detection_time", FieldVal.s ts)],
      time := ts }))
  ++ [{ measurement := "total_animals",
        tags := [("source", source), ("location", location)],
        fieldvals := [("total_count", FieldVal.i (sumVals animal_counts : ℤ)),
                      ("unique_types", FieldVal.i (animal_counts.length : ℤ))],
        time := ts }]

/-- `SimpleInfluxDB.save_animal_counts` (database.py lines 46-89).
`connected` models `self.is_connected()`; the body's exception handler is
modelled by `writeFails`, true when the `write_api.write` call raises
(the `except` branch then returns `False`).  The second component logs
the write calls issued. -/
def save_animal_counts (connected : Bool) (animal_counts : List (String × ℕ))
    (source location ts : String) (writeFails : Bool) :
    Bool × List (List InfluxPoint) :=
  if !connected then (false, [])
  else if animal_counts.isEmpty then (true, [])
  else
    let points := buildAnimalPoints animal_counts source location ts
    if writeFails then (false, [points]) else (true, [points])

theorem nodup_keylist_stepMax (obs m : List (String × ℕ))
    (h : (keylist m).Nodup) : (keylist (stepMax m obs)).Nodup := by
  induction obs generalizing m with
  | nil => exact h
  | cons p t ih =>
      have hstep : stepMax m (p :: t)
          = stepMax (setk m p.1 (max (getD m p.1) p.2)) t := rfl
      rw [hstep]
      exact ih _ (nodup_keylist_setk m p.1 _ h)

theorem mem_keylist_stepMax (obs m : List (String × ℕ)) (a : String) :
    a ∈ keylist (stepMax m obs) ↔ a ∈ keylist m ∨ a ∈ keylist obs := by
  induction obs generalizing m with
  | nil => simp [stepMax, keylist]
  | cons p t ih =>
      have hstep : stepMax m (p :: t)
          = stepMax (setk m p.1 (max (getD m p.1) p.2)) t := rfl
      rw [hstep, ih]
      rw [mem_keylist_setk]
      simp only [keylist, List.map_cons, List.mem_cons]
      tauto

theorem sumVals_eq_sum_keylist (d : List (String × ℕ))
    (h : (keylist d).Nodup) :
    sumVals d = ((keylist d).map (getD d)).sum := by
  induction d with
  | nil => rfl
  | cons p t ih =>
      simp only [keylist, List.map_cons, List.nodup_cons] at h
      have hmap : (keylist t).map (getD (p :: t)) = (keylist t).map (getD t) := by
        refine List.map_congr_left (fun l hl => ?_)
        have : ¬ p.1 = l := fun hc => h.1 (hc ▸ hl)
        simp [getD, this]
      simp only [sumVals, keylist, List.map_cons, List.sum_cons]
      rw [show List.map (getD (p :: t)) (List.map Prod.fst t)
            = (keylist t).map (getD (p :: t)) from rfl, hmap]
      have hhead : getD (p :: t) p.1 = p.2 := by simp [getD]
      rw [hhead, ← ih h.2]
      rfl

theorem sum_map_le_of_subset (l1 l2 : List String) (f : String → ℕ)
    (h1 : l1.Nodup) (h2 : l2.Nodup) (hs : l1 ⊆ l2) :
    (l1.map f).sum ≤ (l2.map f).sum := by
  rw [← List.sum_toFinset f h1, ← List.sum_toFinset f h2]
  exact Finset.sum_le_sum_of_subset (fun a ha => by
    rw [List.mem_toFinset] at ha ⊢
    exact hs ha)

theorem sumVals_le_sumVals_stepMax (obs m : List (String × ℕ))
    (hobs : (keylist obs).Nodup) (hm : (keylist m).Nodup) :
    sumVals obs ≤ sumVals (stepMax m obs) := by
  have hnd : (keylist (stepMax m obs)).Nodup := nodup_keylist_stepMax obs m hm
  rw [sumVals_eq_sum_keylist obs hobs, sumVals_eq_sum_keylist _ hnd]
  have h1 : ((keylist obs).map (getD obs)).sum
      ≤ ((keylist obs).map (getD (stepMax m obs))).sum := by
    refine List.sum_le_sum (fun l hl => ?_)
    rw [getD_stepMax obs m l hobs]
    exact Nat.le_max_right _ _
  refine Nat.le_trans h1 ?_
  refine sum_map_le_of_subset _ _ _ hobs hnd (fun a ha => ?_)
  exact (mem_keylist_stepMax obs m a).2 (Or.inr ha)

theorem nodup_max_counts_runDetector (obss : List (List (String × ℕ)))
    (st : DetectorState) (h : (keylist st.max_counts).Nodup) :
    (keylist (runDetector st obss).max_counts).Nodup := by
  induction obss generalizing st with
  | nil => exact h
  | cons o t ih =>
      have hstep : runDetector st (o :: t) = runDetector ((detect_frame st o).1) t := rfl
      rw [hstep]
      exact ih _ (nodup_keylist_stepMax o st.max_counts h)

/-- C1: for every sequence of per-frame count observations (each one a
dict, so with pairwise-distinct keys), the running maximum dict after
processing the whole sequence holds, for each label, the maximum over
all observations of that label's count (`0` if the label was never
observed), and applying one more observation never decreases the
running maximum of any label. -/
theorem running_max_correct_and_monotone :
    (∀ obss : List (List (String × ℕ)), (∀ o ∈ obss, (keylist o).Nodup) →
      ∀ l, getD (runMax obss) l = ((obss.map (fun o => getD o l)).foldr max 0))
    ∧ (∀ m obs l, getD m l ≤ getD (stepMax m obs) l) := by
  constructor
  · intro obss h l
    rw [runMax, getD_foldl_stepMax obss [] l h]
    simp [getD]
  · exact getD_le_getD_stepMax

/-- Witness for C1 at a concrete two-frame session. -/
theorem running_max_correct_and_monotone_witness :
    getD (runMax [[("cow", 2)], [("cow", 1), ("horse", 3)]]) "cow"
      = (([[("cow", 2)], [("cow", 1), ("horse", 3)]].map
          (fun o => getD o "cow")).foldr max 0)
    ∧ getD (runMax [[("cow", 2)], [("cow", 1), ("horse", 3)]]) "cow" = 2 :=
  ⟨running_max_correct_and_monotone.1 _ (by decide) "cow", by decide⟩

/-- C8: `get_summary` is a pure read: it leaves the detector state
unchanged (so calling it twice with no intervening update returns the
identical summary), and it returns the current counts, the maximum
counts, the sum of the current values, the sum of the maximum values,
and the number of configured animal classes. -/
theorem get_summary_pure_and_idempotent (st : DetectorState) :
    (get_summary st).2 = st
    ∧ (get_summary ((get_summary st).2)).1 = (get_summary st).1
    ∧ (get_summary st).1.current_counts = st.current_counts
    ∧ (get_summary st).1.max_counts = st.max_counts
    ∧ (get_summary st).1.total_animals = sumVals st.current_counts
    ∧ (get_summary st).1.total_max = sumVals st.max_counts
    ∧ (get_summary st).1.animal_types = st.animal_classes.length :=
  ⟨rfl, rfl, rfl, rfl, rfl, rfl, rfl⟩

/-- C9: after any sequence of frame updates (counts are non-negative by
type; each frame's counts form a dict, so have pairwise-distinct keys),
the running maximum of every label is at least its current count, the
current counts are exactly the last frame's observation, and the
summary's `total_max` is at least its `total_animals`. -/
theorem max_counts_dominate_current (cfg : List String)
    (obss : List (List (String × ℕ)))
    (h : ∀ o ∈ obss, (keylist o).Nodup) :
    (∀ l, getD (runDetector (initState cfg) obss).current_counts l
        ≤ getD (runDetector (initState cfg) obss).max_counts l)
    ∧ (get_summary (runDetector (initState cfg) obss)).1.total_animals
        ≤ (get_summary (runDetector (initState cfg) obss)).1.total_max
    ∧ (∀ pre o, runDetector (initState cfg) (pre ++ [o])
        = ((detect_frame (runDetector (initState cfg) pre) o).1)
        ∧ (runDetector (initState cfg) (pre ++ [o])).current_counts = o) := by
  have hsplit : ∀ pre o, runDetector (initState cfg) (pre ++ [o])
      = (detect_frame (runDetector (initState cfg) pre) o).1 := by
    intro pre o
    rw [runDetector, List.foldl_append]
    rfl
  rcases List.eq_nil_or_concat obss with hnil | ⟨pre, o, hcat⟩
  · subst hnil
    refine ⟨fun l => Nat.le_refl _, Nat.le_refl _, fun pre o => ⟨hsplit pre o, ?_⟩⟩
    rw [hsplit pre o]
    rfl
  · rw [List.concat_eq_append] at hcat
    subst hcat
    have ho : (keylist o).Nodup := h o (by simp)
    have hmnd : (keylist (runDetector (initState cfg) pre).max_counts).Nodup :=
      nodup_max_counts_runDetector pre (initState cfg) (by simp [initState, keylist])
    rw [hsplit pre o]
    refine ⟨fun l => ?_, ?_, fun pre2 o2 => ⟨hsplit pre2 o2, ?_⟩⟩
    · show getD o l ≤ getD (stepMax (runDetector (initState cfg) pre).max_counts o) l
      rw [getD_stepMax o _ l ho]
      exact Nat.le_max_right _ _
    · show sumVals o ≤ sumVals (stepMax (runDetector (initState cfg) pre).max_counts o)
      exact sumVals_le_sumVals_stepMax o _ ho hmnd
    · rw [hsplit pre2 o2]
      rfl

/-- Witness for C9 at a concrete two-frame session. -/
theorem max_counts_dominate_current_witness :
    getD (runDetector (initState ["cow", "horse"])
        [[("cow", 2)], [("cow", 1), ("horse", 3)]]).current_counts "cow"
      ≤ getD (runDetector (initState ["cow", "horse"])
        [[("cow", 2)], [("cow", 1), ("horse", 3)]]).max_counts "cow"
    ∧ (get_summary (runDetector (initState ["cow", "horse"])
        [[("cow", 2)], [("cow", 1), ("horse", 3)]])).1.total_animals
      ≤ (get_summary (runDetector (initState ["cow", "horse"])
        [[("cow", 2)], [("cow", 1), ("horse", 3)]])).1.total_max :=
  ⟨(max_counts_dominate_current ["cow", "horse"] _ (by decide)).1 "cow",
   (max_counts_dominate_current ["cow", "horse"] _ (by decide)).2.1⟩

theorem errOf_eq_zero_iff (p g : List (String × ℕ)) (c : String) :
    errOf p g c = 0 ↔ getD p c = getD g c := by
  rw [errOf, Int.natAbs_eq_zero, sub_eq_zero]
  exact_mod_cast Iff.rfl

theorem maeRaw_eq_zero_iff (p g : List (String × ℕ)) :
    maeRaw p g = 0 ↔ ∀ c ∈ classesOf g, getD p c = getD g c := by
  by_cases h : errorsOf p g = []
  · have hcl : classesOf g = [] := by
      rw [errorsOf] at h
      exact List.map_eq_nil_iff.mp h
    simp [maeRaw, h, hcl]
  · have hlen : (0:ℚ) < ((errorsOf p g).length : ℚ) := by
      exact_mod_cast List.length_pos.mpr h
    rw [maeRaw, if_neg h, div_eq_zero_iff]
    constructor
    · rintro (hs | hl)
      · have hs2 : (errorsOf p g).sum = 0 := by exact_mod_cast hs
        intro c hc
        have hz := List.sum_eq_zero_iff.mp hs2
        have he : errOf p g c = 0 :=
          hz _ (by rw [errorsOf]; exact List.mem_map_of_mem _ hc)
        exact (errOf_eq_zero_iff p g c).mp he
      · exact absurd hl (ne_of_gt hlen)
    · intro hall
      left
      have hz : (errorsOf p g).sum = 0 := by
        rw [List.sum_eq_zero_iff]
        intro x hx
        rw [errorsOf] at hx
        rcases List.mem_map.mp hx with ⟨c, hc, hxc⟩
        rw [← hxc]
        exact (errOf_eq_zero_iff p g c).mpr (hall c hc)
      exact_mod_cast hz

theorem filter_length_eq_length_iff (l : List String) (pb : String → Bool) :
    (l.filter pb).length = l.length ↔ ∀ a ∈ l, pb a := by
  constructor
  · intro h
    exact List.filter_eq_self.mp ((List.filter_sublist l).eq_of_length h)
  · intro h
    rw [List.filter_eq_self.mpr h]

theorem accuracyRaw_eq_100_iff (p g : List (String × ℕ)) :
    accuracyRaw p g = 100
      ↔ (classesOf g ≠ [] ∧ ∀ c ∈ classesOf g, getD p c = getD g c) := by
  by_cases h : classesOf g = []
  · have h0 : ¬ 0 < totalOf g := by simp [totalOf, h]
    rw [accuracyRaw, if_neg h0]
    simp [h]
  · have hlen0 : 0 < totalOf g := by
      rw [totalOf]
      exact List.length_pos.mpr h
    have hlenQ : ((totalOf g : ℚ)) ≠ 0 := by
      exact_mod_cast Nat.pos_iff_ne_zero.mp hlen0
    rw [accuracyRaw, if_pos hlen0]
    constructor
    · intro heq
      have h1 : (correctOf p g : ℚ) / (totalOf g : ℚ) = 1 := by linarith
      have h2 : (correctOf p g : ℚ) = (totalOf g : ℚ) := (div_eq_one_iff_eq hlenQ).mp h1
      have h3 : correctOf p g = totalOf g := by exact_mod_cast h2
      refine ⟨h, fun c hc => ?_⟩
      have hall := (filter_length_eq_length_iff (classesOf g)
        (fun c => decide (getD p c = getD g c))).mp h3
      simpa using hall c hc
    · rintro ⟨hne, hall⟩
      have h3 : correctOf p g = totalOf g := by
        rw [correctOf, totalOf]
        exact (filter_length_eq_length_iff _ _).mpr (fun a ha => by simpa using hall a ha)
      rw [h3, div_self hlenQ, one_mul]

theorem metrics_congr (p q g : List (String × ℕ))
    (hpq : ∀ c ∈ classesOf g, getD q c = getD p c) :
    errorsOf q g = errorsOf p g ∧ pctErrorsOf q g = pctErrorsOf p g
      ∧ correctOf q g = correctOf p g := by
  have herr : ∀ c ∈ classesOf g, errOf q g c = errOf p g c := fun c hc => by
    rw [errOf, errOf, hpq c hc]
  refine ⟨List.map_congr_left herr, ?_, ?_⟩
  · rw [pctErrorsOf, pctErrorsOf]
    refine List.map_congr_left (fun c hc => ?_)
    rw [herr c (List.mem_of_mem_filter hc)]
  · rw [correctOf, correctOf]
    congr 1
    refine List.filter_congr (fun c hc => ?_)
    rw [hpq c hc]

/-- C2 (amended): the `mae` field stored by `calculate_metrics` is the
2-decimal rounding of the raw MAE; the raw MAE is `0` iff the predicted
count matches the ground truth on every ground-truth class; for
non-empty ground truth the raw MAE equals the sum over ground-truth
classes of `|P.get(c,0) - G[c]|` divided by the number of ground-truth
classes; the metrics depend only on the predicted counts of the
ground-truth classes (predicted classes absent from the ground truth
are ignored); and a class never predicted contributes an error equal to
its ground-truth value. -/
theorem mae_field_characterization :
    (∀ p g n, (calculate_metrics p g n).mae = round2 (maeRaw p g))
    ∧ (∀ p g, (maeRaw p g = 0 ↔ ∀ c ∈ classesOf g, getD p c = getD g c))
    ∧ (∀ p g, classesOf g ≠ [] →
        maeRaw p g = (((classesOf g).map (fun c => (errOf p g c : ℚ))).sum)
          / ((classesOf g).length : ℚ))
    ∧ (∀ p q g, (∀ c ∈ classesOf g, getD q c = getD p c) →
        maeRaw q g = maeRaw p g ∧ mapeRaw q g = mapeRaw p g
          ∧ accuracyRaw q g = accuracyRaw p g ∧ correctOf q g = correctOf p g)
    ∧ (∀ p g c, getD p c = 0 → errOf p g c = getD g c) := by
  refine ⟨fun p g n => rfl, maeRaw_eq_zero_iff, fun p g h => ?_, fun p q g h => ?_, ?_⟩
  · have herr : errorsOf p g ≠ [] := by
      rw [errorsOf]
      simpa [List.map_eq_nil_iff] using h
    rw [maeRaw, if_neg herr]
    have hsum : ((errorsOf p g).sum : ℚ)
        = ((classesOf g).map (fun c => (errOf p g c : ℚ))).sum := by
      rw [errorsOf, Nat.cast_list_sum, List.map_map]
      rfl
    have hlen : (errorsOf p g).length = (classesOf g).length := by
      rw [errorsOf, List.length_map]
    rw [hsum, hlen]
  · obtain ⟨he, hpe, hc⟩ := metrics_congr p q g h
    refine ⟨?_, ?_, ?_, hc⟩
    · rw [maeRaw, maeRaw, he]
    · rw [mapeRaw, mapeRaw, hpe]
    · rw [accuracyRaw, accuracyRaw, hc]
  · intro p g c hp
    rw [errOf, hp]
    simp

/-- Witness for C2 at concrete non-empty ground truth. -/
theorem mae_field_characterization_witness :
    classesOf [("a", 2), ("b", 1)] ≠ []
    ∧ maeRaw [("a", 2)] [("a", 2), ("b", 1)]
        = (((classesOf [("a", 2), ("b", 1)]).map
            (fun c => (errOf [("a", 2)] [("a", 2), ("b", 1)] c : ℚ))).sum)
          / ((classesOf [("a", 2), ("b", 1)]).length : ℚ) :=
  ⟨by decide, mae_field_characterization.2.2.1 _ _ (by decide)⟩

/-- C2 counterexample: with `G = {a:1, b:1, c:1}` and `P = {a:1, b:1}`,
`P` disagrees with `G` on class `c`, yet the `mae` field of the result
is the rounded `0.33`, not the claimed `Σ|P.get(c,0) - G[c]| / |G| = 1/3`. -/
theorem mae_field_cex :
    ¬ (∀ c ∈ classesOf [("a", 1), ("b", 1), ("c", 1)],
        getD [("a", 1), ("b", 1)] c = getD [("a", 1), ("b", 1), ("c", 1)] c)
    ∧ (calculate_metrics [("a", 1), ("b", 1)] [("a", 1), ("b", 1), ("c", 1)] "v").mae
        = 33/100
    ∧ (((classesOf [("a", 1), ("b", 1), ("c", 1)]).map
        (fun c => (errOf [("a", 1), ("b", 1)] [("a", 1), ("b", 1), ("c", 1)] c : ℚ))).sum)
          / ((classesOf [("a", 1), ("b", 1), ("c", 1)]).length : ℚ) = 1/3
    ∧ (33/100 : ℚ) ≠ 1/3 := by
  have he : errorsOf [("a", 1), ("b", 1)] [("a", 1), ("b", 1), ("c", 1)] = [0, 0, 1] := by
    decide
  have hm : maeRaw [("a", 1), ("b", 1)] [("a", 1), ("b", 1), ("c", 1)] = 1/3 := by
    rw [maeRaw, he, if_neg (by simp)]
    norm_num
  refine ⟨by decide, ?_, ?_, by norm_num⟩
  · show round2 (maeRaw [("a", 1), ("b", 1)] [("a", 1), ("b", 1), ("c", 1)]) = 33/100
    rw [hm, round2, round_eq]
    norm_num
  · have hcl : classesOf [("a", 1), ("b", 1), ("c", 1)] = ["a", "b", "c"] := by decide
    have h1 : errOf [("a", 1), ("b", 1)] [("a", 1), ("b", 1), ("c", 1)] "a" = 0 := by decide
    have h2 : errOf [("a", 1), ("b", 1)] [("a", 1), ("b", 1), ("c", 1)] "b" = 0 := by decide
    have h3 : errOf [("a", 1), ("b", 1)] [("a", 1), ("b", 1), ("c", 1)] "c" = 1 := by decide
    rw [hcl]
    norm_num [h1, h2, h3]

/-- C3: the MAPE computed by `calculate_metrics` averages
`|P.get(c,0) - G[c]| / G[c] * 100` over exactly the ground-truth
classes with nonzero ground truth (classes with `G[c] == 0` are
excluded), returns `0` when no such class exists, and on
`G = {a:0, b:10}`, `P = {a:5, b:8}` the stored fields are
`MAPE = 20.0` and `MAE = 3.5`. -/
theorem mape_excludes_zero_ground_truth :
    (∀ p g n, (calculate_metrics p g n).mape = round2 (mapeRaw p g))
    ∧ (∀ p g, pctErrorsOf p g
        = ((classesOf g).filter (fun c => decide (0 < getD g c))).map
            (fun c => ((errOf p g c : ℚ) / (getD g c : ℚ)) * 100))
    ∧ (∀ p g, (∀ c ∈ classesOf g, getD g c = 0) → mapeRaw p g = 0)
    ∧ (calculate_metrics [("a", 5), ("b", 8)] [("a", 0), ("b", 10)] "v").mape = 20
    ∧ (calculate_metrics [("a", 5), ("b", 8)] [("a", 0), ("b", 10)] "v").mae = 7/2 := by
  refine ⟨fun p g n => rfl, fun p g => rfl, fun p g h => ?_, ?_, ?_⟩
  · have hf : (classesOf g).filter (fun c => decide (0 < getD g c)) = [] := by
      rw [List.filter_eq_nil_iff]
      intro c hc
      simp [h c hc]
    have hpe : pctErrorsOf p g = [] := by
      rw [pctErrorsOf, hf]
      rfl
    rw [mapeRaw, if_pos hpe]
  · have hf : (classesOf [("a", 5), ("b", 8)]).filter
        (fun c => decide (0 < getD [("a", 0), ("b", 10)] c)) = ["b"] := by decide
    have hfg : (classesOf [("a", 0), ("b", 10)]).filter
        (fun c => decide (0 < getD [("a", 0), ("b", 10)] c)) = ["b"] := by decide
    have herr : errOf [("a", 5), ("b", 8)] [("a", 0), ("b", 10)] "b" = 2 := by decide
    have hgt : getD [("a", 0), ("b", 10)] "b" = 10 := by decide
    have hpe : pctErrorsOf [("a", 5), ("b", 8)] [("a", 0), ("b", 10)] = [20] := by
      rw [pctErrorsOf, hfg]
      simp [herr, hgt]
      norm_num
    show round2 (mapeRaw [("a", 5), ("b", 8)] [("a", 0), ("b", 10)]) = 20
    rw [mapeRaw, hpe, if_neg (by simp)]
    rw [round2, round_eq]
    norm_num
  · have he : errorsOf [("a", 5), ("b", 8)] [("a", 0), ("b", 10)] = [5, 2] := by decide
    show round2 (maeRaw [("a", 5), ("b", 8)] [("a", 0), ("b", 10)]) = 7/2
    rw [maeRaw, he, if_neg (by simp)]
    rw [round2, round_eq]
    norm_num

/-- Witness for C3 at an all-zero ground truth. -/
theorem mape_excludes_zero_ground_truth_witness :
    (∀ c ∈ classesOf [("a", 0)], getD [("a", 0)] c = 0)
    ∧ mapeRaw [("x", 1)] [("a", 0)] = 0 :=
  ⟨by decide, mape_excludes_zero_ground_truth.2.2.1 _ _ (by decide)⟩

/-- C4 (amended): the `accuracy` field stored by `calculate_metrics` is
the 2-decimal rounding of the raw accuracy
`(number of exactly matched ground-truth classes) / |G| * 100`
(`0` when `G` is empty), and the raw accuracy equals `100.0` iff `G` is
non-empty and `P.get(c,0) == G[c]` for every class `c` of `G`. -/
theorem accuracy_field_characterization :
    (∀ p g n, (calculate_metrics p g n).accuracy = round2 (accuracyRaw p g))
    ∧ (∀ p g, accuracyRaw p g = 100
        ↔ (classesOf g ≠ [] ∧ ∀ c ∈ classesOf g, getD p c = getD g c))
    ∧ (∀ p g, classesOf g = [] → accuracyRaw p g = 0)
    ∧ (∀ p g, classesOf g ≠ [] →
        accuracyRaw p g = ((correctOf p g : ℚ) / (totalOf g : ℚ)) * 100) := by
  refine ⟨fun p g n => rfl, accuracyRaw_eq_100_iff, fun p g h => ?_, fun p g h => ?_⟩
  · rw [accuracyRaw, if_neg (by simp [totalOf, h])]
  · rw [accuracyRaw, if_pos (by rw [totalOf]; exact List.length_pos.mpr h)]

/-- Witness for C4 at concrete non-empty ground truth. -/
theorem accuracy_field_characterization_witness :
    classesOf [("a", 2), ("b", 1)] ≠ []
    ∧ accuracyRaw [("a", 2)] [("a", 2), ("b", 1)]
        = ((correctOf [("a", 2)] [("a", 2), ("b", 1)] : ℚ)
          / (totalOf [("a", 2), ("b", 1)] : ℚ)) * 100 :=
  ⟨by decide, accuracy_field_characterization.2.2.2 _ _ (by decide)⟩

/-- C4 counterexample: with `G = {a:1, b:1, c:1}` and `P = {a:1, b:1}`,
two of the three classes match, so the claimed accuracy is
`2/3*100 = 200/3`, but the stored `accuracy` field is the rounded
`66.67`, which differs from `200/3`. -/
theorem accuracy_field_cex :
    (calculate_metrics [("a", 1), ("b", 1)] [("a", 1), ("b", 1), ("c", 1)] "v").accuracy
        = 6667/100
    ∧ (calculate_metrics [("a", 1), ("b", 1)]
        [("a", 1), ("b", 1), ("c", 1)] "v").correct_counts = 2
    ∧ (calculate_metrics [("a", 1), ("b", 1)]
        [("a", 1), ("b", 1), ("c", 1)] "v").total_classes = 3
    ∧ (6667/100 : ℚ) ≠ ((2 : ℚ) / 3) * 100 := by
  have hc : correctOf [("a", 1), ("b", 1)] [("a", 1), ("b", 1), ("c", 1)] = 2 := by decide
  have ht : totalOf [("a", 1), ("b", 1), ("c", 1)] = 3 := by decide
  refine ⟨?_, by decide, by decide, by norm_num⟩
  show round2 (accuracyRaw [("a", 1), ("b", 1)] [("a", 1), ("b", 1), ("c", 1)]) = 6667/100
  rw [accuracyRaw, ht, hc, if_pos (by norm_num)]
  rw [round2, round_eq]
  norm_num

theorem evaluate_all_loop_length
    (inputs : List (Option (List (List (String × ℕ))) × List (String × ℕ) × String))
    (rs : List EvalResult) :
    (inputs.foldl (fun rs i => (evaluate_video rs i.1 i.2.1 i.2.2).1) rs).length
      = rs.length + (inputs.filter (fun i => i.1.isSome)).length := by
  induction inputs generalizing rs with
  | nil => simp
  | cons i t ih =>
      rcases hi : i.1 with _ | frames
      · rw [List.foldl_cons, ih]
        have hstep : (evaluate_video rs i.1 i.2.1 i.2.2).1 = rs := by
          rw [hi]
          rfl
        rw [hstep, List.filter_cons]
        simp [hi]
      · rw [List.foldl_cons, ih]
        have hstep : (evaluate_video rs i.1 i.2.1 i.2.2).1
            = rs ++ [calculate_metrics (runMax frames) i.2.1 i.2.2] := by
          rw [hi]
          rfl
        rw [hstep, List.filter_cons]
        simp [hi]
        omega

/-- C5: the overall MAE, MAPE and accuracy printed by `print_summary`
are the unweighted arithmetic means of the per-video stored values:
they agree with the spec's unweighted mean, they depend only on the
list of per-video metric values (so a video with few ground-truth
classes counts exactly like one with many), and on a concrete batch
they differ from the pooled recomputation over all classes of all
videos. -/
theorem overall_average_unweighted :
    (∀ rs : List EvalResult, rs ≠ [] →
      avg_mae rs = unweightedMean (fun r => r.mae) rs
      ∧ avg_mape rs = unweightedMean (fun r => r.mape) rs
      ∧ avg_accuracy rs = unweightedMean (fun r => r.accuracy) rs)
    ∧ (∀ rs rs2 : List EvalResult,
        rs.map (fun r => r.mae) = rs2.map (fun r => r.mae) →
        avg_mae rs = avg_mae rs2)
    ∧ (∀ rs rs2 : List EvalResult,
        rs.map (fun r => r.mape) = rs2.map (fun r => r.mape) →
        avg_mape rs = avg_mape rs2)
    ∧ (∀ rs rs2 : List EvalResult,
        rs.map (fun r => r.accuracy) = rs2.map (fun r => r.accuracy) →
        avg_accuracy rs = avg_accuracy rs2)
    ∧ (avg_mae [calculate_metrics [("a", 0)] [("a", 2)] "v1",
          calculate_metrics [("a", 1), ("b", 1), ("c", 1)]
            [("a", 1), ("b", 1), ("c", 1)] "v2"] = 1
       ∧ pooledMae [([("a", 0)], [("a", 2)]),
            ([("a", 1), ("b", 1), ("c", 1)], [("a", 1), ("b", 1), ("c", 1)])] = 1/2
       ∧ (1 : ℚ) ≠ 1/2) := by
  have hlen : ∀ (rs rs2 : List EvalResult) (f : EvalResult → ℚ),
      rs.map f = rs2.map f → rs.length = rs2.length := by
    intro rs rs2 f h
    have := congrArg List.length h
    simpa using this
  refine ⟨fun rs h => ⟨rfl, rfl, rfl⟩,
    fun rs rs2 h => ?_, fun rs rs2 h => ?_, fun rs rs2 h => ?_, ?_, ?_, by norm_num⟩
  · rw [avg_mae, avg_mae, h, hlen rs rs2 _ h]
  · rw [avg_mape, avg_mape, h, hlen rs rs2 _ h]
  · rw [avg_accuracy, avg_accuracy, h, hlen rs rs2 _ h]
  · have h1 : errorsOf [("a", 0)] [("a", 2)] = [2] := by decide
    have h2 : errorsOf [("a", 1), ("b", 1), ("c", 1)]
        [("a", 1), ("b", 1), ("c", 1)] = [0, 0, 0] := by decide
    have hm1 : (calculate_metrics [("a", 0)] [("a", 2)] "v1").mae = 2 := by
      show round2 (maeRaw [("a", 0)] [("a", 2)]) = 2
      rw [maeRaw, h1, if_neg (by simp), round2, round_eq]
      norm_num
    have hm2 : (calculate_metrics [("a", 1), ("b", 1), ("c", 1)]
        [("a", 1), ("b", 1), ("c", 1)] "v2").mae = 0 := by
      show round2 (maeRaw [("a", 1), ("b", 1), ("c", 1)]
        [("a", 1), ("b", 1), ("c", 1)]) = 0
      rw [maeRaw, h2, if_neg (by simp), round2, round_eq]
      norm_num
    rw [avg_mae]
    norm_num [hm1, hm2]
  · have h1 : errorsOf [("a", 0)] [("a", 2)] = [2] := by decide
    have h2 : errorsOf [("a", 1), ("b", 1), ("c", 1)]
        [("a", 1), ("b", 1), ("c", 1)] = [0, 0, 0] := by decide
    have ht1 : totalOf [("a", 2)] = 1 := by decide
    have ht2 : totalOf [("a", 1), ("b", 1), ("c", 1)] = 3 := by decide
    rw [pooledMae]
    norm_num [h1, h2, ht1, ht2]

/-- Witness for C5 on a concrete singleton batch. -/
theorem overall_average_unweighted_witness :
    ([calculate_metrics [] [] "v"] ≠ ([] : List EvalResult))
    ∧ avg_mae [calculate_metrics [] [] "v"]
        = unweightedMean (fun r => r.mae) [calculate_metrics [] [] "v"] :=
  ⟨by simp, (overall_average_unweighted.1 _ (by simp)).1⟩

/-- C6 (amended): `calculate_metrics` rounds the per-video MAE, MAPE and
accuracy to 2 decimal places before storing them in the result, and
`print_summary` computes the overall cross-video averages from these
rounded stored values, so double-rounding error can enter the batch
averages: on a concrete video the stored batch average is `0.33` while
the average of the raw per-video values would be `1/3`. -/
theorem rounded_fields_enter_averages :
    (∀ p g n, (calculate_metrics p g n).mae = round2 (maeRaw p g)
      ∧ (calculate_metrics p g n).mape = round2 (mapeRaw p g)
      ∧ (calculate_metrics p g n).accuracy = round2 (accuracyRaw p g))
    ∧ (∀ rs : List EvalResult, rs ≠ [] →
        avg_mae rs = (rs.map (fun r => r.mae)).sum / (rs.length : ℚ))
    ∧ (avg_mae [calculate_metrics [("a", 1), ("b", 1)]
          [("a", 1), ("b", 1), ("c", 1)] "v"] = 33/100
       ∧ maeRaw [("a", 1), ("b", 1)] [("a", 1), ("b", 1), ("c", 1)] = 1/3
       ∧ (33/100 : ℚ) ≠ 1/3) := by
  have he : errorsOf [("a", 1), ("b", 1)] [("a", 1), ("b", 1), ("c", 1)]
      = [0, 0, 1] := by decide
  have hm : maeRaw [("a", 1), ("b", 1)] [("a", 1), ("b", 1), ("c", 1)] = 1/3 := by
    rw [maeRaw, he, if_neg (by simp)]
    norm_num
  have hfield : (calculate_metrics [("a", 1), ("b", 1)]
      [("a", 1), ("b", 1), ("c", 1)] "v").mae = 33/100 := by
    show round2 (maeRaw [("a", 1), ("b", 1)] [("a", 1), ("b", 1), ("c", 1)]) = 33/100
    rw [hm, round2, round_eq]
    norm_num
  refine ⟨fun p g n => ⟨rfl, rfl, rfl⟩, fun rs h => rfl, ?_, hm, by norm_num⟩
  rw [avg_mae]
  norm_num [hfield]

/-- Witness for C6 on a concrete singleton batch. -/
theorem rounded_fields_enter_averages_witness :
    ([calculate_metrics [("x", 1)] [("x", 1)] "v"] ≠ ([] : List EvalResult))
    ∧ avg_mae [calculate_metrics [("x", 1)] [("x", 1)] "v"]
        = (([calculate_metrics [("x", 1)] [("x", 1)] "v"].map
            (fun r => r.mae)).sum)
          / (([calculate_metrics [("x", 1)] [("x", 1)] "v"].length : ℚ)) :=
  ⟨by simp, rounded_fields_enter_averages.2.1 _ (by simp)⟩

/-- C6 counterexample: the overall average is computed from the rounded
stored per-video values, not from the unrounded raw ones — on the
single-video batch `G = {a:1, b:1, c:1}`, `P = {a:1, b:1}` the batch
average (`0.33`) differs from the raw per-video MAE (`1/3`), and the
stored per-video `mae` field itself differs from the raw MAE. -/
theorem rounded_fields_cex :
    avg_mae [calculate_metrics [("a", 1), ("b", 1)]
        [("a", 1), ("b", 1), ("c", 1)] "w"]
      ≠ maeRaw [("a", 1), ("b", 1)] [("a", 1), ("b", 1), ("c", 1)]
    ∧ (calculate_metrics [("a", 1), ("b", 1)]
        [("a", 1), ("b", 1), ("c", 1)] "w").mae
      ≠ maeRaw [("a", 1), ("b", 1)] [("a", 1), ("b", 1), ("c", 1)] := by
  have he : errorsOf [("a", 1), ("b", 1)] [("a", 1), ("b", 1), ("c", 1)]
      = [0, 0, 1] := by decide
  have hm : maeRaw [("a", 1), ("b", 1)] [("a", 1), ("b", 1), ("c", 1)] = 1/3 := by
    rw [maeRaw, he, if_neg (by simp)]
    norm_num
  have hfield : (calculate_metrics [("a", 1), ("b", 1)]
      [("a", 1), ("b", 1), ("c", 1)] "w").mae = 33/100 := by
    show round2 (maeRaw [("a", 1), ("b", 1)] [("a", 1), ("b", 1), ("c", 1)]) = 33/100
    rw [hm, round2, round_eq]
    norm_num
  constructor
  · rw [avg_mae, hm]
    norm_num [hfield]
  · rw [hfield, hm]
    norm_num

/-- C7: a video whose frame source cannot be opened yields no
EvaluationResult — `evaluate_video` returns `None` and appends nothing
to the accumulated results — while an openable video appends exactly
one result, so the batch continues across failures, the accumulated
result list counts exactly the openable inputs, and the overall
averages divide by the number of accumulated results only. -/
theorem unopenable_video_skipped :
    (∀ rs g n, evaluate_video rs none g n = (rs, none))
    ∧ (∀ rs frames g n, evaluate_video rs (some frames) g n
        = (rs ++ [calculate_metrics (runMax frames) g n],
           some (calculate_metrics (runMax frames) g n)))
    ∧ (∀ inputs, (evaluate_all inputs).length
        = (inputs.filter (fun i => i.1.isSome)).length)
    ∧ (∀ rs : List EvalResult, rs ≠ [] →
        avg_mae rs = (rs.map (fun r => r.mae)).sum / (rs.length : ℚ)
        ∧ avg_mape rs = (rs.map (fun r => r.mape)).sum / (rs.length : ℚ)
        ∧ avg_accuracy rs = (rs.map (fun r => r.accuracy)).sum / (rs.length : ℚ)) := by
  refine ⟨fun rs g n => rfl, fun rs frames g n => rfl, fun inputs => ?_,
    fun rs h => ⟨rfl, rfl, rfl⟩⟩
  rw [evaluate_all, evaluate_all_loop_length]
  simp

/-- Witness for C7: a batch with one unopenable and one openable video
accumulates exactly one result, and the average divides by it. -/
theorem unopenable_video_skipped_witness :
    (evaluate_all [(none, [("a", 1)], "bad"), (some [[("a", 1)]], [("a", 1)], "good")]).length
      = ([(none, [("a", 1)], "bad"),
          (some [[("a", 1)]], [("a", 1)], "good")].filter (fun i => i.1.isSome)).length
    ∧ ([calculate_metrics [] [("a", 1)] "good"] ≠ ([] : List EvalResult))
    ∧ avg_mae [calculate_metrics [] [("a", 1)] "good"]
        = (([calculate_metrics [] [("a", 1)] "good"].map (fun r => r.mae)).sum)
          / (([calculate_metrics [] [("a", 1)] "good"].length : ℚ)) :=
  ⟨unopenable_video_skipped.2.2.1 _, by simp,
   (unopenable_video_skipped.2.2.2 _ (by simp)).1⟩

/-- C10: `save_animal_counts` on a disconnected client returns `False`
without issuing a write; on an empty counts mapping it returns `True`
while issuing no write at all; on a connected client with non-empty
counts it issues exactly one write of the built points and returns
`True`, or `False` when the write raises (the exception is caught); and
for every input it returns a boolean. -/
theorem save_animal_counts_total :
    (∀ counts s l t w, save_animal_counts false counts s l t w = (false, []))
    ∧ (∀ s l t w, save_animal_counts true [] s l t w = (true, []))
    ∧ (∀ counts s l t, counts ≠ [] →
        save_animal_counts true counts s l t true
          = (false, [buildAnimalPoints counts s l t])
        ∧ save_animal_counts true counts s l t false
          = (true, [buildAnimalPoints counts s l t]))
    ∧ (∀ conn counts s l t w, (save_animal_counts conn counts s l t w).1 = false
        ∨ (save_animal_counts conn counts s l t w).1 = true) := by
  refine ⟨fun counts s l t w => rfl, fun s l t w => rfl, fun counts s l t h => ?_,
    fun conn counts s l t w => (Bool.eq_false_or_eq_true _).symm⟩
  cases counts with
  | nil => exact absurd rfl h
  | cons a tl => exact ⟨rfl, rfl⟩

/-- Witness for C10 on a concrete non-empty counts dict. -/
theorem save_animal_counts_total_witness :
    ([("cow", 2)] ≠ ([] : List (String × ℕ)))
    ∧ save_animal_counts true [("cow", 2)] "s" "l" "t" true
        = (false, [buildAnimalPoints [("cow", 2)] "s" "l" "t"]) :=
  ⟨by decide, (save_animal_counts_total.2.2.1 _ "s" "l" "t" (by decide)).1⟩
